import Mathlib

/-! # ecs-rebalancer: the reconciliation loop of `rebalancer/rebalancer.go`

A shallow embedding of the Go package `rebalancer` and the properties of its
task registry, duplicate evictor, capacity synchroniser and cooldown loop.

Modelling conventions.

* The AWS clients (`svcECS`, `svcCodeDeploy`), the wall clock and the Go
  runtime are the environment.  One `Env` value holds what the environment
  answers during one iteration of the loop: the response of every API
  operation (`none` when the operation returns an error), the two readings of
  `time.Now()` and the order in which `range` walks the registry map.
* Every `if err != nil { log.Fatal(err) }` ends the process.  A function of
  the program is a `Run`: the calls it issued, in order, and its result,
  which is `none` when the process ended inside it (`log.Fatal`, or the index
  panic of `result.Clusters[0]`).
* Go maps are association lists with unique keys (`AList`).
* `time.Time` values are wall-clock instants in nanoseconds (`.Local()` strips
  the monotonic reading), `time.Duration` is a signed 64-bit count of
  nanoseconds: products wrap, `Time.Sub` saturates.  Go `int` is 64 bits wide.
* The counters of `instances` never leave the range of `int`: a counter is at
  most the length of the task list.
* The string pointers of the SDK records (`TaskArn`, `ContainerInstanceArn`,
  ...) are taken to be populated, as they are in the responses of
  `DescribeTasks`, `DescribeClusters` and `DescribeServices`.
* Logging is not modelled.
-/

namespace EcsRebalancer

/-! ## Data model -/

/-- The fields of `ecs.Task` that the program reads. -/
structure Task where
  taskArn : String
  containerInstanceArn : String
  taskDefinitionArn : String
  desiredStatus : String
  healthStatus : String
deriving DecidableEq, Repr

/-- Go `RebalanceConfig`. -/
structure RebalanceConfig where
  cluster : String
  service : String
  deploymentApplicationName : String
  deploymentGroup : String
deriving DecidableEq, Repr

/-- Go `map[string]*ecs.Task`. -/
abbrev TaskMap := AList (fun _ : String => Task)

/-- Go `map[string]bool`. -/
abbrev ArnSet := AList (fun _ : String => Bool)

/-- Go `map[string]int`. -/
abbrev Counters := AList (fun _ : String => Int)

/-- Go `Rebalancer` without the two API clients, which are part of `Env`. -/
structure Rebalancer where
  config : RebalanceConfig
  currentCapacity : Int
  currentTasks : TaskMap
deriving DecidableEq

/-- Go `Rebalancer.Init`, applied to the zero value `rebalancer.Rebalancer{}` as `main` does. -/
def Init (config : RebalanceConfig) : Rebalancer :=
  { config := config, currentCapacity := 0, currentTasks := ∅ }

/-- An observable action of the program: an API call or a `time.Sleep`. -/
inductive Call where
  | listDeployments
  | listContainerInstances
  | listTasks
  | describeTasks (tasks : List String)
  | stopTask (task : String)
  | describeClusters
  | describeServices
  | updateService (desiredCount : Int)
  | sleep (nanoseconds : Int)
deriving DecidableEq, Repr

/-- The order in which a `range` statement produces the entries of a task
map: any rearrangement of the entries, chosen by the runtime. -/
structure RangeOrder where
  order : List (Sigma fun _ : String => Task) → List (Sigma fun _ : String => Task)
  perm : ∀ l, (order l).Perm l

/-- The order that follows the association list. -/
def RangeOrder.asStored : RangeOrder := ⟨fun l => l, fun l => List.Perm.refl l⟩

/-- The opposite order. -/
def RangeOrder.reversed : RangeOrder := ⟨fun l => l.reverse, fun l => List.reverse_perm l⟩

/-- What the environment answers during one iteration of the loop.  An API
response is `none` (or `false` for the two operations without a payload)
when the call returns an error. -/
structure Env where
  /-- Response of `ListDeployments`: the listed deployment ids. -/
  listDeployments : Option (List String)
  /-- Response of `ListContainerInstances`: the container instance ARNs. -/
  listContainerInstances : Option (List String)
  /-- Response of `ListTasks`: the task ARNs. -/
  listTasks : Option (List String)
  /-- Response of `DescribeTasks`: the described tasks, in response order. -/
  describeTasks : Option (List Task)
  /-- Whether `StopTask` on the given task returns without error. -/
  stopTask : String → Bool
  /-- Response of `DescribeClusters`: `RegisteredContainerInstancesCount` of each cluster. -/
  describeClusters : Option (List Int)
  /-- Response of `DescribeServices`: `DesiredCount` of each service returned. -/
  describeServices : Option (List Int)
  /-- Whether `UpdateService` to the given desired count returns without error. -/
  updateService : Int → Bool
  /-- Reading of `time.Now()` where the cooldown deadline is advanced. -/
  nowDeadline : Int
  /-- Reading of `time.Now()` where `hasCoolDownPassed` is computed. -/
  nowCheck : Int
  /-- Iteration order of `range r.currentTasks`. -/
  rangeOrder : RangeOrder

/-- The calls a function issued and its result; `none` when the process
ended inside the function. -/
structure Run (α : Type) where
  calls : List Call
  result : Option α

/-! ## `time` -/

/-- Two's complement wrap-around to a signed 64-bit integer. -/
def wrapInt64 (x : Int) : Int := (x + 2 ^ 63) % 2 ^ 64 - 2 ^ 63

/-- Go `time.Second * time.Duration(n)`, in nanoseconds. -/
def seconds (n : Int) : Int := wrapInt64 (1000000000 * n)

/-- Go `60 * time.Second`. -/
def settleDuration : Int := 60000000000

/-- Go `Time.Add`. -/
def timeAdd (t d : Int) : Int := t + d

/-- Go `Time.Sub`: the difference, saturated to the range of `time.Duration`. -/
def timeSub (t u : Int) : Int := max (-(2 ^ 63)) (min (t - u) (2 ^ 63 - 1))

/-! ## Deployment gate -/

/-- Go `Rebalancer.listDeploymentsInProgress`. -/
def listDeploymentsInProgress (env : Env) : Run Bool :=
  match env.listDeployments with
  | none => ⟨[Call.listDeployments], none⟩
  | some deployments => ⟨[Call.listDeployments], some (deployments.length != 0)⟩

/-! ## Task registry -/

/-- First loop of `syncTasks`: register the tasks not yet known and collect
the live ARNs. -/
def registerLoop : List Task → TaskMap → ArnSet → TaskMap × ArnSet
  | [], currentTasks, currentTaskArns => (currentTasks, currentTaskArns)
  | task :: rest, currentTasks, currentTaskArns =>
    match currentTasks.lookup task.taskArn with
    | some _ => registerLoop rest currentTasks (currentTaskArns.insert task.taskArn true)
    | none =>
      registerLoop rest (currentTasks.insert task.taskArn task)
        (currentTaskArns.insert task.taskArn true)

/-- Second loop of `syncTasks`, over the entries in the order the runtime
produces them.  An entry deleted before it is reached is not produced; the
entry deleted is the one keyed by the ARN of the visited task. -/
def deregisterLoop (currentTaskArns : ArnSet) :
    List (Sigma fun _ : String => Task) → TaskMap → TaskMap
  | [], currentTasks => currentTasks
  | entry :: rest, currentTasks =>
    if entry.1 ∈ currentTasks then
      match currentTaskArns.lookup entry.2.taskArn with
      | some _ => deregisterLoop currentTaskArns rest currentTasks
      | none => deregisterLoop currentTaskArns rest (currentTasks.erase entry.2.taskArn)
    else deregisterLoop currentTaskArns rest currentTasks

/-- Go `Rebalancer.syncTasks`, as a function of the registry. -/
def syncTasks (order : RangeOrder) (tasks : List Task) (currentTasks : TaskMap) : TaskMap :=
  let registered := registerLoop tasks currentTasks ∅
  deregisterLoop registered.2 (order.order registered.1.entries) registered.1

/-! ## Duplicate evictor -/

/-- Go `instances[k]`: the zero value for a missing key. -/
def counter (instances : Counters) (k : String) : Int := (instances.lookup k).getD 0

/-- The loop `instances[*instance] = 0` over the container instances. -/
def initInstances : List String → Counters → Counters
  | [], instances => instances
  | arn :: rest, instances => initInstances rest (instances.insert arn 0)

/-- The loop over the described tasks: count per instance and stop every
task that raises a count above one. -/
def stopLoop (env : Env) : List Task → Counters → Run Counters
  | [], instances => ⟨[], some instances⟩
  | v :: rest, instances =>
    let instances1 :=
      instances.insert v.containerInstanceArn (counter instances v.containerInstanceArn + 1)
    if counter instances1 v.containerInstanceArn > 1 then
      if env.stopTask v.taskArn then
        ⟨Call.stopTask v.taskArn :: (stopLoop env rest instances1).calls,
          (stopLoop env rest instances1).result⟩
      else ⟨[Call.stopTask v.taskArn], none⟩
    else stopLoop env rest instances1

/-- Go `Rebalancer.rebalanceContainerDuplicates`. -/
def rebalanceContainerDuplicates (r : Rebalancer) (env : Env) : Run Rebalancer :=
  match env.listContainerInstances with
  | none => ⟨[Call.listContainerInstances], none⟩
  | some containerInstanceArns =>
    let instances := initInstances containerInstanceArns ∅
    match env.listTasks with
    | none => ⟨[Call.listContainerInstances, Call.listTasks], none⟩
    | some taskArns =>
      match env.describeTasks with
      | none =>
        ⟨[Call.listContainerInstances, Call.listTasks, Call.describeTasks taskArns], none⟩
      | some tasks =>
        let currentTasks := syncTasks env.rangeOrder tasks r.currentTasks
        let stops := stopLoop env tasks instances
        ⟨[Call.listContainerInstances, Call.listTasks, Call.describeTasks taskArns]
            ++ stops.calls,
          stops.result.map (fun _ => { r with currentTasks := currentTasks })⟩

/-! ## Capacity synchroniser -/

/-- Go `Rebalancer.describeClustersCapacity`. -/
def describeClustersCapacity (env : Env) : Run Int :=
  match env.describeClusters with
  | none => ⟨[Call.describeClusters], none⟩
  | some clusters => ⟨[Call.describeClusters], clusters.head?⟩

/-- Go `Rebalancer.updateDesiredCount`. -/
def updateDesiredCount (env : Env) (desiredCount : Int) : Run Unit :=
  ⟨[Call.updateService desiredCount], if env.updateService desiredCount then some () else none⟩

/-- The loop over `result.Services`: update and return at the first service
whose desired count differs from the capacity. -/
def servicesLoop (env : Env) (clusterCapacity : Int) : List Int → Run Bool
  | [] => ⟨[], some false⟩
  | desiredCount :: rest =>
    if desiredCount ≠ clusterCapacity then
      ⟨(updateDesiredCount env clusterCapacity).calls,
        (updateDesiredCount env clusterCapacity).result.map (fun _ => true)⟩
    else servicesLoop env clusterCapacity rest

/-- Go `Rebalancer.rebalanceServiceCapacity`. -/
def rebalanceServiceCapacity (r : Rebalancer) (env : Env) : Run (Rebalancer × Bool) :=
  match (describeClustersCapacity env).result with
  | none => ⟨(describeClustersCapacity env).calls, none⟩
  | some clusterCapacity =>
    let r1 : Rebalancer :=
      if clusterCapacity ≠ r.currentCapacity then { r with currentCapacity := clusterCapacity }
      else r
    match env.describeServices with
    | none => ⟨(describeClustersCapacity env).calls ++ [Call.describeServices], none⟩
    | some services =>
      ⟨(describeClustersCapacity env).calls ++ [Call.describeServices]
          ++ (servicesLoop env clusterCapacity services).calls,
        (servicesLoop env clusterCapacity services).result.map (fun changed => (r1, changed))⟩

/-! ## Reconciliation loop -/

/-- The variables of `RunReconcile` that live across iterations. -/
structure LoopState where
  r : Rebalancer
  coolDownTill : Int
deriving DecidableEq

/-- One iteration of the `for` loop of `RunReconcile`, the closing
`time.Sleep` included. -/
def tick (loopFrequencySeconds coolDownSeconds : Int) (env : Env) (s : LoopState) :
    Run LoopState :=
  match (listDeploymentsInProgress env).result with
  | none => ⟨(listDeploymentsInProgress env).calls, none⟩
  | some hasDeploymentsInProgress =>
    let coolDownTill :=
      if hasDeploymentsInProgress then timeAdd env.nowDeadline (seconds coolDownSeconds)
      else s.coolDownTill
    let hasCoolDownPassed : Bool := decide (timeSub env.nowCheck coolDownTill > 0)
    if (!hasDeploymentsInProgress && hasCoolDownPassed) = true then
      match (rebalanceServiceCapacity s.r env).result with
      | none =>
        ⟨(listDeploymentsInProgress env).calls ++ (rebalanceServiceCapacity s.r env).calls, none⟩
      | some (r1, changed) =>
        let settle := if changed = true then [Call.sleep settleDuration] else []
        match (rebalanceContainerDuplicates r1 env).result with
        | none =>
          ⟨(listDeploymentsInProgress env).calls ++ (rebalanceServiceCapacity s.r env).calls
              ++ settle ++ (rebalanceContainerDuplicates r1 env).calls, none⟩
        | some r2 =>
          ⟨(listDeploymentsInProgress env).calls ++ (rebalanceServiceCapacity s.r env).calls
              ++ settle ++ (rebalanceContainerDuplicates r1 env).calls
              ++ [Call.sleep (seconds loopFrequencySeconds)],
            some ⟨r2, coolDownTill⟩⟩
    else
      ⟨(listDeploymentsInProgress env).calls ++ [Call.sleep (seconds loopFrequencySeconds)],
        some ⟨s.r, coolDownTill⟩⟩

/-- The iterations of the loop against the given environments, one per
iteration, until the process ends or the environments run out. -/
def runTicks (loopFrequencySeconds coolDownSeconds : Int) :
    List Env → LoopState → List (Run LoopState)
  | [], _ => []
  | env :: rest, s =>
    tick loopFrequencySeconds coolDownSeconds env s ::
      (match (tick loopFrequencySeconds coolDownSeconds env s).result with
        | none => []
        | some s1 => runTicks loopFrequencySeconds coolDownSeconds rest s1)

/-- The value of `coolDownTill` before the first iteration, `start` being
the reading of `time.Now()` on entry. -/
def initialCoolDownTill (start loopFrequencySeconds : Int) : Int :=
  timeAdd start (seconds loopFrequencySeconds)

/-- Go `Rebalancer.RunReconcile`: the loop never returns; this is what it
does in its first `envs.length` iterations. -/
def RunReconcile (r : Rebalancer) (loopFrequencySeconds coolDownSeconds : Int)
    (start : Int) (envs : List Env) : List (Run LoopState) :=
  runTicks loopFrequencySeconds coolDownSeconds envs
    ⟨r, initialCoolDownTill start loopFrequencySeconds⟩

/-! ## Vocabulary of the properties -/

/-- Data-model invariant of the registry: every key is the ARN of the task
stored under it.  `Init` establishes it and `syncTasks` preserves it. -/
def WellKeyed (m : TaskMap) : Prop := ∀ e ∈ m.entries, e.1 = e.2.taskArn

instance (m : TaskMap) : Decidable (WellKeyed m) :=
  inferInstanceAs (Decidable (∀ e ∈ m.entries, e.1 = e.2.taskArn))

/-- The tasks of the `StopTask` calls of a trace, in order. -/
def stopped : List Call → List String
  | [] => []
  | Call.stopTask task :: rest => task :: stopped rest
  | _ :: rest => stopped rest

/-- Position of the first task of the list that is placed on `host`. -/
def firstOnHost (tasks : List Task) (host : String) : Nat :=
  tasks.findIdx (fun u => u.containerInstanceArn == host)

/-- Specification side of the evictor: the tasks that are not the first task
in the list for their host, in list order. -/
def notFirstOnHost (tasks : List Task) : List Task :=
  (tasks.enum.filter (fun p => firstOnHost tasks p.2.containerInstanceArn != p.1)).map Prod.snd

/-- Number of hosts that hold at least one task of the list. -/
def hostsWithTask (tasks : List Task) : Nat :=
  (tasks.map Task.containerInstanceArn).toFinset.card

/-- Number of tasks of the list placed on `host`. -/
def tasksOn (tasks : List Task) (host : String) : Nat :=
  tasks.countP (fun u => u.containerInstanceArn == host)

/-- The tasks whose host is in `seen` or carries an earlier task of the list. -/
def dupsFrom : List String → List Task → List Task
  | _, [] => []
  | seen, v :: rest =>
    if v.containerInstanceArn ∈ seen then v :: dupsFrom (v.containerInstanceArn :: seen) rest
    else dupsFrom (v.containerInstanceArn :: seen) rest

/-- The counters are non-negative and positive exactly on the hosts of `seen`. -/
def Tracks (instances : Counters) (seen : List String) : Prop :=
  ∀ h, 0 ≤ counter instances h ∧ (0 < counter instances h ↔ h ∈ seen)

/-- A call of the capacity synchroniser. -/
def Call.isCapacity : Call → Bool
  | Call.describeClusters => true
  | Call.describeServices => true
  | Call.updateService _ => true
  | _ => false

/-- A `StopTask` call. -/
def Call.isStop : Call → Bool
  | Call.stopTask _ => true
  | _ => false

/-- A call to the orchestration API: every call of the capacity synchroniser
and of the duplicate evictor is one, `ListDeployments` and sleeping are not. -/
def Call.isEcs : Call → Bool
  | Call.listDeployments => false
  | Call.sleep _ => false
  | _ => true

/-- The orchestration state that the capacity synchroniser reads and
writes: the number of registered container instances and the desired count
of the managed service (`none` when `DescribeServices` finds no service). -/
structure Orchestration where
  registered : Int
  desired : Option Int
deriving DecidableEq, Repr

/-- The answers of the orchestration API in the given state; everything
else is answered as in `env`. -/
def Orchestration.answers (o : Orchestration) (env : Env) : Env :=
  { env with
    describeClusters := some [o.registered]
    describeServices := some o.desired.toList
    updateService := fun _ => o.desired.isSome }

/-- Effect of one call on the orchestration state: `UpdateService` sets the
desired count of the service, no other call changes the state. -/
def Orchestration.apply (o : Orchestration) : Call → Orchestration
  | Call.updateService desiredCount => { o with desired := o.desired.map (fun _ => desiredCount) }
  | _ => o

/-- The orchestration state after a sequence of calls. -/
def Orchestration.after (o : Orchestration) (calls : List Call) : Orchestration :=
  calls.foldl Orchestration.apply o

/-- Two invocations of `rebalanceServiceCapacity` in succession, against an
orchestration state that only the calls of the first invocation change.
`none` when the process ends inside the first invocation. -/
def capacityTwice (r : Rebalancer) (o : Orchestration) (env : Env) :
    Option (Run (Rebalancer × Bool)) :=
  (rebalanceServiceCapacity r (o.answers env)).result.map
    (fun first =>
      rebalanceServiceCapacity first.1
        ((o.after (rebalanceServiceCapacity r (o.answers env)).calls).answers env))

/-- Every reading of the clock at a cooldown check is at least `gap` after
the previous one. -/
def spaced (gap : Int) : Int → List Env → Prop
  | _, [] => True
  | previous, env :: rest => previous + gap ≤ env.nowCheck ∧ spaced gap env.nowCheck rest

/-- The clock does not go back between the entry of `RunReconcile` and the
first cooldown check, and two successive cooldown checks are at least
`loopFrequencySeconds` seconds apart (the sleep that separates them). -/
def Timed (start loopFrequencySeconds : Int) : List Env → Prop
  | [] => True
  | env :: rest =>
    start ≤ env.nowCheck ∧ spaced (loopFrequencySeconds * 1000000000) env.nowCheck rest

/-! ## Concrete scenarios -/

/-- A configuration for the scenarios. -/
def demoConfig : RebalanceConfig := ⟨"cluster", "service", "application", "group"⟩

/-- A running task with the given ARN on the given host. -/
def demoTask (taskArn host : String) : Task :=
  ⟨taskArn, host, "definition", "RUNNING", "HEALTHY"⟩

/-- Host A runs t1 and t2, host B runs t3. -/
def demoTasks : List Task := [demoTask "t1" "A", demoTask "t2" "A", demoTask "t3" "B"]

/-- No deployment in progress, three registered hosts, desired count two,
the tasks of `demoTasks`, no API error, the clock at 101 ns. -/
def demoEnv : Env :=
  { listDeployments := some []
    listContainerInstances := some ["A", "B", "C"]
    listTasks := some ["t1", "t2", "t3"]
    describeTasks := some demoTasks
    stopTask := fun _ => true
    describeClusters := some [3]
    describeServices := some [2]
    updateService := fun _ => true
    nowDeadline := 101
    nowCheck := 101
    rangeOrder := RangeOrder.reversed }

/-- A registry that still holds a task that is gone. -/
def demoRegistry : TaskMap :=
  (AList.insert "t0" (demoTask "t0" "B") ∅).insert "t1" (demoTask "t1" "A")

/-- The loop state with the registry of `demoRegistry` and the cooldown
deadline at 100 ns. -/
def demoState : LoopState :=
  ⟨{ config := demoConfig, currentCapacity := 0, currentTasks := demoRegistry }, 100⟩

/-- The environment `demoEnv` with a deployment in progress. -/
def demoDeploying : Env := { demoEnv with listDeployments := some ["d-1"] }

/-- The environment `demoEnv` with the clock at 99 ns, before the deadline of `demoState`. -/
def demoCooling : Env := { demoEnv with nowCheck := 99 }

/-- The environment `demoEnv` with the clock at 100 ns, the deadline of `demoState`. -/
def demoAtDeadline : Env := { demoEnv with nowCheck := 100 }

/-- Two iterations five seconds apart, the first one nanosecond after the
start at 0. -/
def demoTicks : List Env :=
  [{ demoEnv with nowCheck := 1 }, { demoEnv with nowCheck := 5000000001 }]

/-- A single iteration at the very start, at 0. -/
def demoFirstTick : List Env := [{ demoEnv with nowCheck := 0 }]

/-! ## Task registry: proofs -/

theorem wellKeyed_empty : WellKeyed (∅ : TaskMap) := by
  intro e he
  simp at he

theorem wellKeyed_insert {m : TaskMap} (h : WellKeyed m) (task : Task) :
    WellKeyed (m.insert task.taskArn task) := by
  intro e he
  rw [AList.insert_entries, List.mem_cons] at he
  rcases he with rfl | he
  · rfl
  · exact h e ((List.kerase_sublist _ _).subset he)

theorem wellKeyed_erase {m : TaskMap} (h : WellKeyed m) (a : String) :
    WellKeyed (m.erase a) := by
  intro e he
  exact h e ((List.kerase_sublist _ _).subset he)

theorem mem_registerLoop_fst (tasks : List Task) (cur : TaskMap) (arns : ArnSet) (k : String) :
    k ∈ (registerLoop tasks cur arns).1 ↔ k ∈ cur ∨ k ∈ tasks.map Task.taskArn := by
  induction tasks generalizing cur arns with
  | nil => simp [registerLoop]
  | cons task rest ih =>
    unfold registerLoop
    cases hl : cur.lookup task.taskArn with
    | some t =>
      have hm : task.taskArn ∈ cur := AList.lookup_isSome.mp (by simp [hl])
      simp only [ih, List.map_cons, List.mem_cons]
      constructor
      · rintro (h | h)
        · exact Or.inl h
        · exact Or.inr (Or.inr h)
      · rintro (h | h | h)
        · exact Or.inl h
        · exact Or.inl (h ▸ hm)
        · exact Or.inr h
    | none =>
      simp only [ih, List.map_cons, List.mem_cons, AList.mem_insert]
      tauto

theorem mem_registerLoop_snd (tasks : List Task) (cur : TaskMap) (arns : ArnSet) (k : String) :
    k ∈ (registerLoop tasks cur arns).2 ↔ k ∈ arns ∨ k ∈ tasks.map Task.taskArn := by
  induction tasks generalizing cur arns with
  | nil => simp [registerLoop]
  | cons task rest ih =>
    unfold registerLoop
    cases hl : cur.lookup task.taskArn with
    | some t =>
      simp only [ih, List.map_cons, List.mem_cons, AList.mem_insert]
      tauto
    | none =>
      simp only [ih, List.map_cons, List.mem_cons, AList.mem_insert]
      tauto

theorem wellKeyed_registerLoop (tasks : List Task) (cur : TaskMap) (arns : ArnSet)
    (h : WellKeyed cur) : WellKeyed (registerLoop tasks cur arns).1 := by
  induction tasks generalizing cur arns with
  | nil => simpa [registerLoop] using h
  | cons task rest ih =>
    unfold registerLoop
    cases hl : cur.lookup task.taskArn with
    | some t => exact ih _ _ h
    | none => exact ih _ _ (wellKeyed_insert h task)

theorem registerLoop_fst_of_known (tasks : List Task) (cur : TaskMap) (arns : ArnSet)
    (h : ∀ t ∈ tasks, t.taskArn ∈ cur) : (registerLoop tasks cur arns).1 = cur := by
  induction tasks generalizing arns with
  | nil => rfl
  | cons task rest ih =>
    unfold registerLoop
    cases hl : cur.lookup task.taskArn with
    | some t => exact ih _ (fun t ht => h t (List.mem_cons_of_mem _ ht))
    | none =>
      have := h task (List.mem_cons_self _ _)
      exact absurd this (AList.lookup_eq_none.mp hl)

theorem arn_mem_iff_lookup (arns : ArnSet) (a : String) :
    a ∈ arns ↔ ∃ b, arns.lookup a = some b := by
  rw [← AList.lookup_isSome, Option.isSome_iff_exists]

theorem deregisterLoop_entries_subset (arns : ArnSet)
    (es : List (Sigma fun _ : String => Task)) (cur : TaskMap) :
    (deregisterLoop arns es cur).entries ⊆ cur.entries := by
  induction es generalizing cur with
  | nil => exact fun _ h => h
  | cons e rest ih =>
    unfold deregisterLoop
    split_ifs with hm
    · cases hl : arns.lookup e.2.taskArn with
      | some b => exact ih cur
      | none =>
        exact fun x hx => (List.kerase_sublist _ _).subset (ih (cur.erase e.2.taskArn) hx)
    · exact ih cur

theorem wellKeyed_deregisterLoop (arns : ArnSet)
    (es : List (Sigma fun _ : String => Task)) (cur : TaskMap) (h : WellKeyed cur) :
    WellKeyed (deregisterLoop arns es cur) :=
  fun e he => h e (deregisterLoop_entries_subset arns es cur he)

theorem mem_deregisterLoop_of_live (arns : ArnSet)
    (es : List (Sigma fun _ : String => Task)) (cur : TaskMap) (k : String)
    (hk : k ∈ arns) (hc : k ∈ cur) : k ∈ deregisterLoop arns es cur := by
  induction es generalizing cur with
  | nil => exact hc
  | cons e rest ih =>
    unfold deregisterLoop
    split_ifs with hm
    · cases hl : arns.lookup e.2.taskArn with
      | some b => exact ih cur hc
      | none =>
        refine ih _ (AList.mem_erase.mpr ⟨?_, hc⟩)
        rintro rfl
        exact (AList.lookup_eq_none.mp hl) hk
    · exact ih cur hc

theorem mem_deregisterLoop (arns : ArnSet)
    (es : List (Sigma fun _ : String => Task)) (cur : TaskMap) (k : String)
    (hes : ∀ e ∈ es, e.1 = e.2.taskArn) :
    k ∈ deregisterLoop arns es cur ↔ k ∈ cur ∧ (k ∈ es.keys → k ∈ arns) := by
  induction es generalizing cur with
  | nil => simp [deregisterLoop]
  | cons e rest ih =>
    have he : e.1 = e.2.taskArn := hes e (List.mem_cons_self _ _)
    have hrest : ∀ x ∈ rest, x.1 = x.2.taskArn := fun x hx => hes x (List.mem_cons_of_mem _ hx)
    unfold deregisterLoop
    simp only [List.keys_cons, List.mem_cons]
    split_ifs with hm
    · cases hl : arns.lookup e.2.taskArn with
      | some b =>
        have ha : e.1 ∈ arns := by
          rw [he]; exact (arn_mem_iff_lookup _ _).mpr ⟨b, hl⟩
        rw [ih cur hrest]
        constructor
        · rintro ⟨h1, h2⟩
          refine ⟨h1, ?_⟩
          rintro (rfl | h)
          · exact ha
          · exact h2 h
        · rintro ⟨h1, h2⟩
          exact ⟨h1, fun h => h2 (Or.inr h)⟩
      | none =>
        have ha : e.1 ∉ arns := by
          rw [he]; exact AList.lookup_eq_none.mp hl
        rw [ih _ hrest, AList.mem_erase, ← he]
        constructor
        · rintro ⟨⟨h0, h1⟩, h2⟩
          refine ⟨h1, ?_⟩
          rintro (h | h)
          · exact absurd h h0
          · exact h2 h
        · rintro ⟨h1, h2⟩
          refine ⟨⟨?_, h1⟩, fun h => h2 (Or.inr h)⟩
          intro h
          exact ha (h ▸ h2 (Or.inl h))
    · rw [ih cur hrest]
      constructor
      · rintro ⟨h1, h2⟩
        refine ⟨h1, ?_⟩
        rintro (rfl | h)
        · exact absurd h1 hm
        · exact h2 h
      · rintro ⟨h1, h2⟩
        exact ⟨h1, fun h => h2 (Or.inr h)⟩

theorem wellKeyed_syncTasks (order : RangeOrder) (tasks : List Task) (cur : TaskMap)
    (h : WellKeyed cur) : WellKeyed (syncTasks order tasks cur) :=
  wellKeyed_deregisterLoop _ _ _ (wellKeyed_registerLoop tasks cur ∅ h)

theorem mem_syncTasks (order : RangeOrder) (tasks : List Task) (cur : TaskMap)
    (h : WellKeyed cur) (k : String) :
    k ∈ syncTasks order tasks cur ↔ k ∈ tasks.map Task.taskArn := by
  have hw := wellKeyed_registerLoop tasks cur ∅ h
  have hperm := order.perm (registerLoop tasks cur ∅).1.entries
  unfold syncTasks
  rw [mem_deregisterLoop _ _ _ _ (fun e he => hw e (hperm.subset he))]
  have hkeys : k ∈ (order.order (registerLoop tasks cur ∅).1.entries).keys ↔
      k ∈ (registerLoop tasks cur ∅).1 := by
    rw [AList.mem_keys]
    exact (hperm.map Sigma.fst).mem_iff
  rw [hkeys, mem_registerLoop_fst, mem_registerLoop_snd]
  simp only [AList.not_mem_empty, false_or]
  tauto

theorem deregisterLoop_settled (arns : ArnSet)
    (es : List (Sigma fun _ : String => Task)) (cur : TaskMap)
    (h : ∀ e ∈ cur.entries, e ∈ es ∨ e.2.taskArn ∈ arns ∨ e.2.taskArn ∉ cur) :
    ∀ e ∈ (deregisterLoop arns es cur).entries,
      e.2.taskArn ∈ arns ∨ e.2.taskArn ∉ deregisterLoop arns es cur := by
  induction es generalizing cur with
  | nil =>
    intro e he
    rcases h e he with h1 | h1 | h1
    · simp at h1
    · exact Or.inl h1
    · exact Or.inr h1
  | cons e0 rest ih =>
    unfold deregisterLoop
    split_ifs with hm
    · cases hl : arns.lookup e0.2.taskArn with
      | some b =>
        refine ih cur (fun e he => ?_)
        rcases h e he with h1 | h1 | h1
        · rcases List.mem_cons.mp h1 with rfl | h2
          · exact Or.inr (Or.inl ((arn_mem_iff_lookup _ _).mpr ⟨b, hl⟩))
          · exact Or.inl h2
        · exact Or.inr (Or.inl h1)
        · exact Or.inr (Or.inr h1)
      | none =>
        refine ih (cur.erase e0.2.taskArn) (fun e he => ?_)
        have he1 : e ∈ cur.entries := (List.kerase_sublist _ _).subset he
        rcases h e he1 with h1 | h1 | h1
        · rcases List.mem_cons.mp h1 with rfl | h2
          · exact Or.inr (Or.inr (fun hc => (AList.mem_erase.mp hc).1 rfl))
          · exact Or.inl h2
        · exact Or.inr (Or.inl h1)
        · exact Or.inr (Or.inr (fun hc => h1 (AList.mem_erase.mp hc).2))
    · refine ih cur (fun e he => ?_)
      rcases h e he with h1 | h1 | h1
      · rcases List.mem_cons.mp h1 with rfl | h2
        · exact absurd (AList.mem_keys.mpr (List.mem_keys_of_mem he)) hm
        · exact Or.inl h2
      · exact Or.inr (Or.inl h1)
      · exact Or.inr (Or.inr h1)

theorem erase_of_not_mem (cur : TaskMap) (a : String) (h : a ∉ cur) : cur.erase a = cur :=
  AList.ext (List.kerase_of_not_mem_keys h)

theorem deregisterLoop_fixed (arns : ArnSet)
    (es : List (Sigma fun _ : String => Task)) (cur : TaskMap)
    (h : ∀ e ∈ es, e.2.taskArn ∈ arns ∨ e.2.taskArn ∉ cur) :
    deregisterLoop arns es cur = cur := by
  induction es with
  | nil => rfl
  | cons e0 rest ih =>
    have hrest := ih (fun e he => h e (List.mem_cons_of_mem _ he))
    unfold deregisterLoop
    split_ifs with hm
    · cases hl : arns.lookup e0.2.taskArn with
      | some b => exact hrest
      | none =>
        have hn : e0.2.taskArn ∉ cur := by
          rcases h e0 (List.mem_cons_self _ _) with h1 | h1
          · exact absurd h1 (AList.lookup_eq_none.mp hl)
          · exact h1
        simp only [erase_of_not_mem cur _ hn]
        exact hrest
    · exact hrest

/-! ## Duplicate evictor: proofs -/

theorem counter_insert_self (instances : Counters) (k : String) (v : Int) :
    counter (instances.insert k v) k = v := by
  simp [counter, AList.lookup_insert]

theorem counter_insert_ne (instances : Counters) {k h : String} (v : Int) (hne : h ≠ k) :
    counter (instances.insert k v) h = counter instances h := by
  simp [counter, AList.lookup_insert_ne hne]

theorem counter_initInstances (arns : List String) (instances : Counters)
    (h0 : ∀ k, counter instances k = 0) : ∀ k, counter (initInstances arns instances) k = 0 := by
  induction arns generalizing instances with
  | nil => exact h0
  | cons a rest ih =>
    refine ih _ (fun k => ?_)
    by_cases hk : k = a
    · subst hk
      exact counter_insert_self _ _ _
    · rw [counter_insert_ne _ _ hk]
      exact h0 k

theorem tracks_initInstances (arns : List String) : Tracks (initInstances arns ∅) [] := by
  intro h
  have := counter_initInstances arns ∅ (fun k => by simp [counter]) h
  simp [this]

theorem tracks_step {instances : Counters} {seen : List String} (ht : Tracks instances seen)
    (k : String) : Tracks (instances.insert k (counter instances k + 1)) (k :: seen) := by
  intro h
  by_cases hk : h = k
  · subst hk
    have := (ht h).1
    rw [counter_insert_self]
    simp only [List.mem_cons, true_or, iff_true]
    omega
  · rw [counter_insert_ne _ _ hk]
    have := ht h
    simp only [List.mem_cons, hk, false_or]
    exact this

theorem step_gt_one {instances : Counters} {seen : List String} (ht : Tracks instances seen)
    (k : String) :
    counter (instances.insert k (counter instances k + 1)) k > 1 ↔ k ∈ seen := by
  rw [counter_insert_self, ← (ht k).2]
  omega

theorem stopLoop_of_ok (env : Env) (hok : ∀ a, env.stopTask a = true) (tasks : List Task)
    (instances : Counters) (seen : List String) (ht : Tracks instances seen) :
    (stopLoop env tasks instances).calls
        = (dupsFrom seen tasks).map (fun t => Call.stopTask t.taskArn)
      ∧ (stopLoop env tasks instances).result.isSome = true := by
  induction tasks generalizing instances seen with
  | nil => simp [stopLoop, dupsFrom]
  | cons v rest ih =>
    have hstep := ih _ _ (tracks_step ht v.containerInstanceArn)
    have hgt := step_gt_one ht v.containerInstanceArn
    unfold stopLoop dupsFrom
    by_cases hs : v.containerInstanceArn ∈ seen
    · simp only [hgt.mpr hs, hs, if_true, hok, List.map_cons, hstep.1, hstep.2, and_self]
    · have hng : ¬ counter (AList.insert v.containerInstanceArn
          (counter instances v.containerInstanceArn + 1) instances) v.containerInstanceArn > 1 :=
        fun h => hs (hgt.mp h)
      simp only [hng, hs, if_false, hstep.1, hstep.2, and_self]

theorem stopLoop_sublist (env : Env) (tasks : List Task)
    (instances : Counters) (seen : List String) (ht : Tracks instances seen) :
    List.Sublist (stopLoop env tasks instances).calls
      ((dupsFrom seen tasks).map (fun t => Call.stopTask t.taskArn)) := by
  induction tasks generalizing instances seen with
  | nil => simp [stopLoop, dupsFrom]
  | cons v rest ih =>
    have hstep := ih _ _ (tracks_step ht v.containerInstanceArn)
    have hgt := step_gt_one ht v.containerInstanceArn
    unfold stopLoop dupsFrom
    by_cases hs : v.containerInstanceArn ∈ seen
    · simp only [hgt.mpr hs, hs, if_true, List.map_cons]
      by_cases hok : env.stopTask v.taskArn = true
      · simp only [hok, if_true]
        exact hstep.cons₂ _
      · simp only [hok]
        exact (List.nil_sublist _).cons₂ _
    · have hng : ¬ counter (AList.insert v.containerInstanceArn
          (counter instances v.containerInstanceArn + 1) instances) v.containerInstanceArn > 1 :=
        fun h => hs (hgt.mp h)
      simp only [hng, hs, if_false]
      exact hstep

theorem stopped_map_stopTask (ts : List Task) :
    stopped (ts.map (fun t => Call.stopTask t.taskArn)) = ts.map Task.taskArn := by
  induction ts with
  | nil => rfl
  | cons t rest ih => simp [stopped, ih]

theorem stopped_sublist {l1 l2 : List Call} (h : List.Sublist l1 l2) :
    List.Sublist (stopped l1) (stopped l2) := by
  induction h with
  | slnil => exact List.Sublist.refl _
  | cons a _ ih =>
    cases a <;> simp only [stopped] <;> first | exact ih | exact ih.cons _
  | cons₂ a _ ih =>
    cases a <;> simp only [stopped] <;> first | exact ih | exact ih.cons₂ _

theorem dupsFrom_sublist (seen : List String) (tasks : List Task) :
    List.Sublist (dupsFrom seen tasks) tasks := by
  induction tasks generalizing seen with
  | nil => exact List.Sublist.refl _
  | cons v rest ih =>
    unfold dupsFrom
    split_ifs
    · exact (ih _).cons₂ _
    · exact (ih _).cons _

theorem dupsFrom_length (seen : List String) (tasks : List Task) :
    (dupsFrom seen tasks).length
        + ((tasks.map Task.containerInstanceArn).toFinset \ seen.toFinset).card
      = tasks.length := by
  induction tasks generalizing seen with
  | nil => simp [dupsFrom]
  | cons v rest ih =>
    have hrest := ih (v.containerInstanceArn :: seen)
    rw [List.toFinset_cons] at hrest
    unfold dupsFrom
    simp only [List.map_cons, List.toFinset_cons, List.length_cons]
    by_cases hs : v.containerInstanceArn ∈ seen
    · have hs1 : v.containerInstanceArn ∈ seen.toFinset := List.mem_toFinset.mpr hs
      rw [Finset.insert_eq_of_mem hs1] at hrest
      rw [if_pos hs, List.length_cons, Finset.insert_sdiff_of_mem _ hs1]
      omega
    · have hs1 : v.containerInstanceArn ∉ seen.toFinset := fun h => hs (List.mem_toFinset.mp h)
      have heq : insert v.containerInstanceArn
            ((rest.map Task.containerInstanceArn).toFinset \ seen.toFinset)
          = insert v.containerInstanceArn
            ((rest.map Task.containerInstanceArn).toFinset
              \ insert v.containerInstanceArn seen.toFinset) := by
        ext x
        simp only [Finset.mem_insert, Finset.mem_sdiff]
        tauto
      have hnot : v.containerInstanceArn ∉
          (rest.map Task.containerInstanceArn).toFinset
            \ insert v.containerInstanceArn seen.toFinset := by
        simp
      rw [if_neg hs, Finset.insert_sdiff_of_not_mem _ hs1, heq,
        Finset.card_insert_of_not_mem hnot]
      omega

theorem tasksOn_pos_of_mem {tasks : List Task} {t : Task} (h : t ∈ tasks) :
    0 < tasksOn tasks t.containerInstanceArn := by
  unfold tasksOn
  exact List.countP_pos_iff.mpr ⟨t, h, by simp⟩

theorem tasksOn_of_mem_dupsFrom (seen : List String) (tasks : List Task) (t : Task)
    (h : t ∈ dupsFrom seen tasks) :
    t.containerInstanceArn ∈ seen ∨ 2 ≤ tasksOn tasks t.containerInstanceArn := by
  induction tasks generalizing seen with
  | nil => simp [dupsFrom] at h
  | cons v rest ih =>
    have hcons : tasksOn (v :: rest) t.containerInstanceArn
        = tasksOn rest t.containerInstanceArn
          + (if v.containerInstanceArn = t.containerInstanceArn then 1 else 0) := by
      simp [tasksOn, List.countP_cons]
    unfold dupsFrom at h
    by_cases hs : v.containerInstanceArn ∈ seen
    · rw [if_pos hs] at h
      rcases List.mem_cons.mp h with rfl | h1
      · exact Or.inl hs
      · rcases ih _ h1 with h2 | h2
        · rcases List.mem_cons.mp h2 with h3 | h3
          · exact Or.inl (h3 ▸ hs)
          · exact Or.inl h3
        · exact Or.inr (by rw [hcons]; omega)
    · rw [if_neg hs] at h
      rcases ih _ h with h2 | h2
      · rcases List.mem_cons.mp h2 with h3 | h3
        · have hpos := tasksOn_pos_of_mem ((dupsFrom_sublist _ _).subset h)
          exact Or.inr (by rw [hcons, if_pos h3.symm]; omega)
        · exact Or.inl h3
      · exact Or.inr (by rw [hcons]; omega)

theorem firstOnHost_append_cons (pre : List Task) (v : Task) (rest : List Task) :
    firstOnHost (pre ++ v :: rest) v.containerInstanceArn ≠ pre.length
      ↔ ∃ u ∈ pre, u.containerInstanceArn = v.containerInstanceArn := by
  unfold firstOnHost
  rw [List.findIdx_append, List.findIdx_cons]
  simp only [beq_self_eq_true, cond_true, Nat.zero_add]
  have hlt := @List.findIdx_lt_length _ (fun u : Task => u.containerInstanceArn
    == v.containerInstanceArn) pre
  simp only [beq_iff_eq] at hlt
  rw [← hlt]
  split_ifs with h
  · exact ⟨fun _ => h, fun _ => Nat.ne_of_lt h⟩
  · exact ⟨fun hne => absurd rfl hne, fun hlt2 => absurd hlt2 h⟩

theorem dupsFrom_eq_filter (pre : List Task) (seen : List String) (tasks : List Task)
    (hseen : ∀ h, h ∈ seen ↔ ∃ u ∈ pre, u.containerInstanceArn = h) :
    dupsFrom seen tasks
      = ((tasks.enumFrom pre.length).filter
          (fun p => firstOnHost (pre ++ tasks) p.2.containerInstanceArn != p.1)).map Prod.snd := by
  induction tasks generalizing pre seen with
  | nil => simp [dupsFrom]
  | cons v rest ih =>
    have hnext : ∀ h, h ∈ v.containerInstanceArn :: seen
        ↔ ∃ u ∈ pre ++ [v], u.containerInstanceArn = h := by
      intro h
      rw [List.mem_cons, hseen h]
      constructor
      · rintro (rfl | ⟨u, hu, rfl⟩)
        · exact ⟨v, List.mem_append_right _ (List.mem_singleton_self v), rfl⟩
        · exact ⟨u, List.mem_append_left _ hu, rfl⟩
      · rintro ⟨u, hu, rfl⟩
        rcases List.mem_append.mp hu with h1 | h1
        · exact Or.inr ⟨u, h1, rfl⟩
        · rw [List.mem_singleton.mp h1]
          exact Or.inl rfl
    have hrest := ih (pre ++ [v]) (v.containerInstanceArn :: seen) hnext
    simp only [List.length_append, List.length_singleton, List.append_assoc,
      List.singleton_append] at hrest
    have hfirst := firstOnHost_append_cons pre v rest
    unfold dupsFrom
    rw [List.enumFrom_cons, List.filter_cons]
    by_cases hs : v.containerInstanceArn ∈ seen
    · have hne : firstOnHost (pre ++ v :: rest) v.containerInstanceArn ≠ pre.length :=
        hfirst.mpr ((hseen _).mp hs)
      simp only [hs, if_true, bne_iff_ne, ne_eq, hne, not_false_eq_true, List.map_cons, hrest]
    · have heq : firstOnHost (pre ++ v :: rest) v.containerInstanceArn = pre.length := by
        by_contra hne
        exact hs ((hseen _).mpr (hfirst.mp hne))
      simp only [hs, if_false, heq, bne_self_eq_false, hrest]
      rfl

theorem dupsFrom_nil_eq (tasks : List Task) : dupsFrom [] tasks = notFirstOnHost tasks := by
  have := dupsFrom_eq_filter [] [] tasks (by simp)
  simpa [notFirstOnHost, List.enum] using this

theorem rebalanceContainerDuplicates_of_ok (r : Rebalancer) (env : Env)
    (hosts taskArns : List String) (tasks : List Task)
    (h1 : env.listContainerInstances = some hosts) (h2 : env.listTasks = some taskArns)
    (h3 : env.describeTasks = some tasks) (hok : ∀ a, env.stopTask a = true) :
    (rebalanceContainerDuplicates r env).calls
        = [Call.listContainerInstances, Call.listTasks, Call.describeTasks taskArns]
          ++ (notFirstOnHost tasks).map (fun t => Call.stopTask t.taskArn)
      ∧ (rebalanceContainerDuplicates r env).result
        = some { r with currentTasks := syncTasks env.rangeOrder tasks r.currentTasks } := by
  have hloop := stopLoop_of_ok env hok tasks _ [] (tracks_initInstances hosts)
  rw [dupsFrom_nil_eq] at hloop
  obtain ⟨x, hx⟩ := Option.isSome_iff_exists.mp hloop.2
  simp only [rebalanceContainerDuplicates, h1, h2, h3, hloop.1, hx, Option.map_some', and_self]

theorem stopped_rebalanceContainerDuplicates (r : Rebalancer) (env : Env) (tasks : List Task)
    (h3 : env.describeTasks = some tasks) :
    List.Sublist (stopped (rebalanceContainerDuplicates r env).calls)
      ((notFirstOnHost tasks).map Task.taskArn) := by
  unfold rebalanceContainerDuplicates
  cases h1 : env.listContainerInstances with
  | none => simp [stopped]
  | some hosts =>
    cases h2 : env.listTasks with
    | none => simp [stopped]
    | some taskArns =>
      have hloop := stopLoop_sublist env tasks _ [] (tracks_initInstances hosts)
      rw [dupsFrom_nil_eq] at hloop
      have := stopped_sublist hloop
      rw [stopped_map_stopTask] at this
      simpa [h3, stopped] using this

/-! ## Capacity synchroniser: proofs -/

theorem rebalanceServiceCapacity_single (r : Rebalancer) (env : Env) (c d : Int)
    (others : List Int) (h1 : env.describeClusters = some (c :: others))
    (h2 : env.describeServices = some [d]) (h3 : env.updateService c = true) :
    (rebalanceServiceCapacity r env).calls
        = [Call.describeClusters, Call.describeServices]
          ++ (if d ≠ c then [Call.updateService c] else [])
      ∧ (rebalanceServiceCapacity r env).result
        = some ({ r with currentCapacity := c }, decide (d ≠ c)) := by
  have hr : (if c ≠ r.currentCapacity then { r with currentCapacity := c } else r)
      = { r with currentCapacity := c } := by
    split_ifs with h
    · rfl
    · rw [not_not] at h
      subst h
      rfl
  by_cases hd : d = c
  · simp [rebalanceServiceCapacity, describeClustersCapacity, servicesLoop, h1, h2, hd, hr]
  · simp [rebalanceServiceCapacity, describeClustersCapacity, servicesLoop, updateDesiredCount,
      h1, h2, h3, hd, hr]

/-! ## Reconciliation loop: proofs -/

theorem timeSub_pos (t u : Int) : timeSub t u > 0 ↔ u < t := by
  unfold timeSub
  omega

theorem seconds_of_inRange (n : Int) (h0 : 0 ≤ n) (h1 : n ≤ 9223372036) :
    seconds n = n * 1000000000 := by
  unfold seconds wrapInt64
  omega

theorem listDeployments_calls (env : Env) :
    (listDeploymentsInProgress env).calls = [Call.listDeployments] := by
  unfold listDeploymentsInProgress
  cases env.listDeployments <;> rfl

theorem tick_of_deployment (p c : Int) (env : Env) (s : LoopState)
    (h : (listDeploymentsInProgress env).result = some true) :
    tick p c env s
      = ⟨[Call.listDeployments, Call.sleep (seconds p)],
          some ⟨s.r, timeAdd env.nowDeadline (seconds c)⟩⟩ := by
  simp [tick, h, listDeployments_calls]

theorem tick_of_cooling (p c : Int) (env : Env) (s : LoopState)
    (h : (listDeploymentsInProgress env).result = some false)
    (hnow : env.nowCheck ≤ s.coolDownTill) :
    tick p c env s = ⟨[Call.listDeployments, Call.sleep (seconds p)], some s⟩ := by
  have hsub : ¬ timeSub env.nowCheck s.coolDownTill > 0 := by
    rw [timeSub_pos]
    omega
  simp [tick, h, listDeployments_calls, hsub]

theorem tick_of_passed (p c : Int) (env : Env) (s : LoopState) (r1 : Rebalancer)
    (changed : Bool) (h : (listDeploymentsInProgress env).result = some false)
    (hnow : s.coolDownTill < env.nowCheck)
    (hcap : (rebalanceServiceCapacity s.r env).result = some (r1, changed)) :
    (tick p c env s).calls
        = [Call.listDeployments] ++ (rebalanceServiceCapacity s.r env).calls
          ++ (if changed = true then [Call.sleep settleDuration] else [])
          ++ (rebalanceContainerDuplicates r1 env).calls
          ++ (if (rebalanceContainerDuplicates r1 env).result.isSome = true
              then [Call.sleep (seconds p)] else [])
      ∧ (tick p c env s).result
        = (rebalanceContainerDuplicates r1 env).result.map (fun r2 => ⟨r2, s.coolDownTill⟩) := by
  have hsub : timeSub env.nowCheck s.coolDownTill > 0 := (timeSub_pos _ _).mpr hnow
  cases hev : (rebalanceContainerDuplicates r1 env).result with
  | none => simp [tick, h, listDeployments_calls, hsub, hcap, hev]
  | some r2 => simp [tick, h, listDeployments_calls, hsub, hcap, hev]

theorem tick_ecs_only_when_passed (p c : Int) (env : Env) (s : LoopState)
    (hx : ∃ x ∈ (tick p c env s).calls, x.isEcs = true) :
    (listDeploymentsInProgress env).result = some false ∧ s.coolDownTill < env.nowCheck := by
  cases h : (listDeploymentsInProgress env).result with
  | none =>
    exfalso
    obtain ⟨x, hmem, hecs⟩ := hx
    simp [tick, h, listDeployments_calls] at hmem
    subst hmem
    simp [Call.isEcs] at hecs
  | some b =>
    cases b with
    | true =>
      exfalso
      obtain ⟨x, hmem, hecs⟩ := hx
      rw [tick_of_deployment p c env s h] at hmem
      simp only [List.mem_cons, List.mem_singleton, List.not_mem_nil, or_false] at hmem
      rcases hmem with rfl | rfl <;> simp [Call.isEcs] at hecs
    | false =>
      refine ⟨rfl, ?_⟩
      by_contra hnot
      obtain ⟨x, hmem, hecs⟩ := hx
      rw [tick_of_cooling p c env s h (by omega)] at hmem
      simp only [List.mem_cons, List.mem_singleton, List.not_mem_nil, or_false] at hmem
      rcases hmem with rfl | rfl <;> simp [Call.isEcs] at hecs

theorem spaced_lower_bound (gap start : Int) (hgap : 0 ≤ gap) (envs : List Env)
    (previous : Int) (hprev : start ≤ previous) (h : spaced gap previous envs) :
    ∀ env ∈ envs, start + gap ≤ env.nowCheck := by
  induction envs generalizing previous with
  | nil => intro env henv; simp at henv
  | cons e rest ih =>
    obtain ⟨h1, h2⟩ := h
    intro env henv
    rcases List.mem_cons.mp henv with rfl | hmem
    · omega
    · exact ih e.nowCheck (by omega) h2 env hmem

theorem runReconcile_acts_late (r : Rebalancer) (p c start : Int) (envs : List Env)
    (hp0 : 0 ≤ p) (hp1 : p ≤ 9223372036) (ht : Timed start p envs) :
    ∀ pr ∈ List.zip envs (RunReconcile r p c start envs),
      (∃ x ∈ pr.2.calls, x.isEcs = true) → start + p * 1000000000 ≤ pr.1.nowCheck := by
  cases envs with
  | nil => intro pr hpr; simp at hpr
  | cons env rest =>
    obtain ⟨h1, h2⟩ := ht
    intro pr hpr hx
    unfold RunReconcile runTicks at hpr
    rw [List.zip_cons_cons, List.mem_cons] at hpr
    rcases hpr with rfl | hmem
    · have := (tick_ecs_only_when_passed p c env _ hx).2
      simp only [initialCoolDownTill, timeAdd, seconds_of_inRange p hp0 hp1] at this
      show start + p * 1000000000 ≤ env.nowCheck
      omega
    · have hin : pr.1 ∈ rest := (List.of_mem_zip (a := pr.1) (b := pr.2) hmem).1
      exact spaced_lower_bound _ start (by omega) rest env.nowCheck h1 h2 pr.1 hin

theorem capacityTwice_unchanged (r : Rebalancer) (o : Orchestration) (env : Env) :
    ∃ second, capacityTwice r o env = some second
      ∧ second.calls = [Call.describeClusters, Call.describeServices]
      ∧ second.result.map Prod.snd = some false := by
  obtain ⟨registered, desired⟩ := o
  cases desired with
  | none =>
    simp [capacityTwice, rebalanceServiceCapacity, describeClustersCapacity, servicesLoop,
      Orchestration.answers, Orchestration.after, Orchestration.apply]
  | some d =>
    by_cases hd : d = registered
    · simp [capacityTwice, rebalanceServiceCapacity, describeClustersCapacity, servicesLoop,
        Orchestration.answers, Orchestration.after, Orchestration.apply, hd]
    · simp [capacityTwice, rebalanceServiceCapacity, describeClustersCapacity, servicesLoop,
        updateDesiredCount, Orchestration.answers, Orchestration.after, Orchestration.apply, hd]

/-! ## The registry invariant along the loop -/

theorem wellKeyed_init (config : RebalanceConfig) : WellKeyed (Init config).currentTasks :=
  wellKeyed_empty

theorem rebalanceServiceCapacity_currentTasks (r r1 : Rebalancer) (env : Env) (changed : Bool)
    (h : (rebalanceServiceCapacity r env).result = some (r1, changed)) :
    r1.currentTasks = r.currentTasks := by
  unfold rebalanceServiceCapacity at h
  cases hc : (describeClustersCapacity env).result with
  | none => simp [hc] at h
  | some clusterCapacity =>
    cases hs : env.describeServices with
    | none => simp [hc, hs] at h
    | some services =>
      simp only [hc, hs, Option.map_eq_some'] at h
      obtain ⟨b, _, hb⟩ := h
      have h1 := (Prod.mk.inj hb).1
      rw [← h1]
      split_ifs <;> rfl

theorem rebalanceContainerDuplicates_wellKeyed (r r2 : Rebalancer) (env : Env)
    (hw : WellKeyed r.currentTasks)
    (h : (rebalanceContainerDuplicates r env).result = some r2) :
    WellKeyed r2.currentTasks := by
  unfold rebalanceContainerDuplicates at h
  cases h1 : env.listContainerInstances with
  | none => simp [h1] at h
  | some hosts =>
    cases h2 : env.listTasks with
    | none => simp [h1, h2] at h
    | some taskArns =>
      cases h3 : env.describeTasks with
      | none => simp [h1, h2, h3] at h
      | some tasks =>
        simp only [h1, h2, h3, Option.map_eq_some'] at h
        obtain ⟨_, _, hr⟩ := h
        rw [← hr]
        exact wellKeyed_syncTasks _ _ _ hw

theorem tick_wellKeyed (p c : Int) (env : Env) (s s1 : LoopState)
    (hw : WellKeyed s.r.currentTasks) (h : (tick p c env s).result = some s1) :
    WellKeyed s1.r.currentTasks := by
  cases hg : (listDeploymentsInProgress env).result with
  | none => simp [tick, hg] at h
  | some b =>
    cases b with
    | true =>
      rw [tick_of_deployment p c env s hg, Option.some.injEq] at h
      rw [← h]
      exact hw
    | false =>
      by_cases hnow : env.nowCheck ≤ s.coolDownTill
      · rw [tick_of_cooling p c env s hg hnow, Option.some.injEq] at h
        rw [← h]
        exact hw
      · have hlt : s.coolDownTill < env.nowCheck := by omega
        cases hcap : (rebalanceServiceCapacity s.r env).result with
        | none =>
          have hsub : timeSub env.nowCheck s.coolDownTill > 0 := (timeSub_pos _ _).mpr hlt
          simp [tick, hg, hsub, hcap] at h
        | some pair =>
          obtain ⟨r1, changed⟩ := pair
          have hr1 := rebalanceServiceCapacity_currentTasks s.r r1 env changed hcap
          rw [(tick_of_passed p c env s r1 changed hg hlt hcap).2, Option.map_eq_some'] at h
          obtain ⟨r2, hev, hs1⟩ := h
          rw [← hs1]
          exact rebalanceContainerDuplicates_wellKeyed r1 r2 env (hr1 ▸ hw) hev

/-! ## The properties of the specification -/

/-- C1: a pass of `rebalanceContainerDuplicates` whose API calls all succeed
returns, and the `StopTask` calls it issues are exactly, and in list order,
the tasks returned by `DescribeTasks` that are not the first task of the list
for their host, whatever the host inventory is. -/
theorem evictor_stops_all_but_first_on_host (r : Rebalancer) (env : Env)
    (hosts taskArns : List String) (tasks : List Task)
    (h1 : env.listContainerInstances = some hosts) (h2 : env.listTasks = some taskArns)
    (h3 : env.describeTasks = some tasks) (hok : ∀ a, env.stopTask a = true) :
    stopped (rebalanceContainerDuplicates r env).calls
        = (notFirstOnHost tasks).map Task.taskArn
      ∧ (rebalanceContainerDuplicates r env).result.isSome = true := by
  have h := rebalanceContainerDuplicates_of_ok r env hosts taskArns tasks h1 h2 h3 hok
  rw [h.1, h.2]
  simp [stopped, stopped_map_stopTask]

/-- Scenario of C1: host A with t1 and t2, host B with t3; exactly t2 is
stopped. -/
theorem evictor_stops_all_but_first_on_host_witness :
    (stopped (rebalanceContainerDuplicates demoState.r demoEnv).calls
        = (notFirstOnHost demoTasks).map Task.taskArn
      ∧ (rebalanceContainerDuplicates demoState.r demoEnv).result.isSome = true)
      ∧ (notFirstOnHost demoTasks).map Task.taskArn = ["t2"] :=
  ⟨evictor_stops_all_but_first_on_host demoState.r demoEnv ["A", "B", "C"] ["t1", "t2", "t3"]
      demoTasks rfl rfl rfl (fun _ => rfl),
    by decide⟩

/-- C2: when the task ARNs of the list returned by `DescribeTasks` are
pairwise distinct, a pass of `rebalanceContainerDuplicates` issues at most
(number of tasks - number of hosts holding at least one task) `StopTask`
calls, and every task it stops is on a host that holds at least two tasks
of the list. -/
theorem evictor_stop_bound (r : Rebalancer) (env : Env) (tasks : List Task)
    (h3 : env.describeTasks = some tasks) (hd : (tasks.map Task.taskArn).Nodup) :
    (stopped (rebalanceContainerDuplicates r env).calls).length
        ≤ tasks.length - hostsWithTask tasks
      ∧ ∀ t ∈ tasks, t.taskArn ∈ stopped (rebalanceContainerDuplicates r env).calls →
          2 ≤ tasksOn tasks t.containerInstanceArn := by
  have hsub := stopped_rebalanceContainerDuplicates r env tasks h3
  rw [← dupsFrom_nil_eq] at hsub
  constructor
  · have hlen := hsub.length_le
    have hcount := dupsFrom_length [] tasks
    rw [List.length_map] at hlen
    simp only [List.toFinset_nil, Finset.sdiff_empty] at hcount
    unfold hostsWithTask
    omega
  · intro t ht hstop
    obtain ⟨u, hu, harn⟩ := List.mem_map.mp (hsub.subset hstop)
    have hu1 : u ∈ tasks := (dupsFrom_sublist [] tasks).subset hu
    have heq : u = t := List.inj_on_of_nodup_map hd hu1 ht harn
    subst heq
    rcases tasksOn_of_mem_dupsFrom [] tasks u hu with h | h
    · simp at h
    · exact h

/-- Scenario of C2: three tasks on two hosts, at most one stop. -/
theorem evictor_stop_bound_witness :
    (demoTasks.map Task.taskArn).Nodup
      ∧ (stopped (rebalanceContainerDuplicates demoState.r demoEnv).calls).length
          ≤ demoTasks.length - hostsWithTask demoTasks
      ∧ ∀ t ∈ demoTasks,
          t.taskArn ∈ stopped (rebalanceContainerDuplicates demoState.r demoEnv).calls →
            2 ≤ tasksOn demoTasks t.containerInstanceArn :=
  ⟨by decide, evictor_stop_bound demoState.r demoEnv demoTasks rfl (by decide)⟩

/-- C3: with cluster capacity `c` and desired count `d` of the managed
service (and the API calls succeeding), `rebalanceServiceCapacity` issues
`UpdateService` with desired count `c` and returns true when `d ≠ c`; it
issues no update and returns false when `d = c`. -/
theorem capacity_sync_follows_capacity (r : Rebalancer) (env : Env) (c d : Int)
    (others : List Int) (h1 : env.describeClusters = some (c :: others))
    (h2 : env.describeServices = some [d]) (h3 : env.updateService c = true) :
    (d ≠ c →
        (rebalanceServiceCapacity r env).calls
            = [Call.describeClusters, Call.describeServices, Call.updateService c]
          ∧ (rebalanceServiceCapacity r env).result = some ({ r with currentCapacity := c }, true))
      ∧ (d = c →
        (rebalanceServiceCapacity r env).calls = [Call.describeClusters, Call.describeServices]
          ∧ (rebalanceServiceCapacity r env).result
            = some ({ r with currentCapacity := c }, false)) := by
  have h := rebalanceServiceCapacity_single r env c d others h1 h2 h3
  constructor
  · intro hd
    simpa [hd] using h
  · intro hd
    simpa [hd] using h

/-- Scenario of C3: three hosts, desired count two: an update to three and
the result true. -/
theorem capacity_sync_follows_capacity_witness :
    (rebalanceServiceCapacity demoState.r demoEnv).calls
        = [Call.describeClusters, Call.describeServices, Call.updateService 3]
      ∧ (rebalanceServiceCapacity demoState.r demoEnv).result
        = some ({ demoState.r with currentCapacity := 3 }, true) :=
  (capacity_sync_follows_capacity demoState.r demoEnv 3 2 [] rfl rfl rfl).1 (by decide)

/-- C4: for a registry in which every key is the ARN of the task stored
under it (every registry the program builds), the keys after `syncTasks`
are exactly the ARNs of the live list, in whatever order the runtime walks
the map. -/
theorem syncTasks_keys_eq_live (order : RangeOrder) (tasks : List Task) (cur : TaskMap)
    (h : WellKeyed cur) :
    (syncTasks order tasks cur).keys.toFinset = (tasks.map Task.taskArn).toFinset := by
  ext k
  rw [List.mem_toFinset, List.mem_toFinset, ← AList.mem_keys]
  exact mem_syncTasks order tasks cur h k

/-- Scenario of C4: the stale t0 is dropped, t2 and t3 are added. -/
theorem syncTasks_keys_eq_live_witness :
    WellKeyed demoRegistry
      ∧ (syncTasks RangeOrder.reversed demoTasks demoRegistry).keys.toFinset
        = (demoTasks.map Task.taskArn).toFinset :=
  ⟨by decide, syncTasks_keys_eq_live RangeOrder.reversed demoTasks demoRegistry (by decide)⟩

/-- C5 as stated fails for a cooldown whose nanosecond count does not fit in
64 bits: with 9223372037 seconds the product `time.Second *
time.Duration(coolDownSeconds)` wraps, and the deadline set by an iteration
that sees a deployment at 101 ns lies far in the past instead of 9223372037
seconds ahead. -/
theorem tick_wrapped_cooldown_sets_past_deadline :
    (listDeploymentsInProgress demoDeploying).result = some true
      ∧ (tick 5 9223372037 demoDeploying demoState).result.map LoopState.coolDownTill
        = some (-9223372036709551515)
      ∧ (tick 5 9223372037 demoDeploying demoState).result.map LoopState.coolDownTill
        ≠ some (demoDeploying.nowDeadline + 9223372037 * 1000000000) := by
  have h := tick_of_deployment 5 9223372037 demoDeploying demoState rfl
  refine ⟨rfl, ?_, ?_⟩
  · rw [h]
    decide
  · rw [h]
    decide

/-- C5, amended: on an iteration of `RunReconcile` where
`listDeploymentsInProgress` returns true, the only actions are the
`ListDeployments` call and the closing sleep (no capacity call, no
`StopTask` call); and for a cooldown of `c` seconds with
`-9223372036 ≤ c ≤ 9223372036` (so that its nanosecond count fits in 64
bits) the cooldown deadline after the iteration is the clock reading of the
iteration plus `c` seconds, the rest of the loop state being unchanged. -/
theorem tick_during_deployment (p c : Int) (env : Env) (s : LoopState)
    (h : (listDeploymentsInProgress env).result = some true) :
    (tick p c env s).calls = [Call.listDeployments, Call.sleep (seconds p)]
      ∧ (∀ x ∈ (tick p c env s).calls, x.isCapacity = false ∧ x.isStop = false)
      ∧ (-9223372036 ≤ c → c ≤ 9223372036 →
          (tick p c env s).result = some ⟨s.r, env.nowDeadline + c * 1000000000⟩) := by
  rw [tick_of_deployment p c env s h]
  refine ⟨rfl, ?_, ?_⟩
  · intro x hx
    simp only [List.mem_cons, List.mem_singleton, List.not_mem_nil, or_false] at hx
    rcases hx with rfl | rfl <;> exact ⟨rfl, rfl⟩
  · intro h0 h1
    have hs : seconds c = c * 1000000000 := by
      unfold seconds wrapInt64
      omega
    simp only [timeAdd, hs]

/-- Scenario of C5, amended: a deployment is listed at 101 ns with a
cooldown of 100 seconds; the deadline becomes 100000000101 ns. -/
theorem tick_during_deployment_witness :
    (listDeploymentsInProgress demoDeploying).result = some true
      ∧ (tick 5 100 demoDeploying demoState).calls
        = [Call.listDeployments, Call.sleep 5000000000]
      ∧ (∀ x ∈ (tick 5 100 demoDeploying demoState).calls,
          x.isCapacity = false ∧ x.isStop = false)
      ∧ (tick 5 100 demoDeploying demoState).result = some ⟨demoState.r, 100000000101⟩ :=
  ⟨rfl, (tick_during_deployment 5 100 demoDeploying demoState rfl).1,
    (tick_during_deployment 5 100 demoDeploying demoState rfl).2.1,
    (tick_during_deployment 5 100 demoDeploying demoState rfl).2.2 (by decide) (by decide)⟩

/-- C6 as stated fails at the deadline: with no deployment in progress and
the clock equal to the cooldown deadline, the iteration runs neither the
capacity synchroniser nor the duplicate evictor. -/
theorem tick_at_deadline_does_not_act :
    (listDeploymentsInProgress demoAtDeadline).result = some false
      ∧ demoAtDeadline.nowCheck ≥ demoState.coolDownTill
      ∧ (tick 5 100 demoAtDeadline demoState).calls
        = [Call.listDeployments, Call.sleep 5000000000] := by
  decide

/-- C6, amended: on an iteration where `listDeploymentsInProgress` returns
false and the clock is strictly after the cooldown deadline, the loop runs
the capacity synchroniser; when the synchroniser returns, the loop sleeps
for the settle duration exactly when it returned true, then runs the
duplicate evictor on the state the synchroniser left, and closes with the
inter-iteration sleep once the evictor has returned. -/
theorem tick_acts_after_deadline (p c : Int) (env : Env) (s : LoopState)
    (h : (listDeploymentsInProgress env).result = some false)
    (hnow : s.coolDownTill < env.nowCheck) :
    (∃ rest, (tick p c env s).calls
        = [Call.listDeployments] ++ (rebalanceServiceCapacity s.r env).calls ++ rest)
      ∧ ∀ r1 changed, (rebalanceServiceCapacity s.r env).result = some (r1, changed) →
        (tick p c env s).calls
            = [Call.listDeployments] ++ (rebalanceServiceCapacity s.r env).calls
              ++ (if changed = true then [Call.sleep settleDuration] else [])
              ++ (rebalanceContainerDuplicates r1 env).calls
              ++ (if (rebalanceContainerDuplicates r1 env).result.isSome = true
                  then [Call.sleep (seconds p)] else [])
          ∧ (tick p c env s).result
            = (rebalanceContainerDuplicates r1 env).result.map
                (fun r2 => ⟨r2, s.coolDownTill⟩) := by
  constructor
  · cases hcap : (rebalanceServiceCapacity s.r env).result with
    | none =>
      have hsub : timeSub env.nowCheck s.coolDownTill > 0 := (timeSub_pos _ _).mpr hnow
      exact ⟨[], by simp [tick, h, listDeployments_calls, hsub, hcap]⟩
    | some pair =>
      obtain ⟨r1, changed⟩ := pair
      refine ⟨(if changed = true then [Call.sleep settleDuration] else [])
        ++ (rebalanceContainerDuplicates r1 env).calls
        ++ (if (rebalanceContainerDuplicates r1 env).result.isSome = true
            then [Call.sleep (seconds p)] else []), ?_⟩
      rw [(tick_of_passed p c env s r1 changed h hnow hcap).1]
      simp only [List.append_assoc]
  · intro r1 changed hcap
    exact tick_of_passed p c env s r1 changed h hnow hcap

/-- Scenario of C6, amended: one nanosecond after the deadline the loop
updates the desired count, settles, and stops t2. -/
theorem tick_acts_after_deadline_witness :
    (listDeploymentsInProgress demoEnv).result = some false
      ∧ demoState.coolDownTill < demoEnv.nowCheck
      ∧ (tick 5 100 demoEnv demoState).calls
        = [Call.listDeployments, Call.describeClusters, Call.describeServices,
            Call.updateService 3, Call.sleep 60000000000, Call.listContainerInstances,
            Call.listTasks, Call.describeTasks ["t1", "t2", "t3"], Call.stopTask "t2",
            Call.sleep 5000000000] :=
  ⟨rfl, by decide,
    ((tick_acts_after_deadline 5 100 demoEnv demoState rfl (by decide)).2
      { demoState.r with currentCapacity := 3 } true rfl).1.trans (by decide)⟩

/-- C7: on an iteration where `listDeploymentsInProgress` returns false and
the clock is before the cooldown deadline, the only actions are the
`ListDeployments` call and the closing sleep (neither the capacity
synchroniser nor the duplicate evictor runs), and the loop state, cooldown
deadline included, is unchanged. -/
theorem tick_during_cooldown (p c : Int) (env : Env) (s : LoopState)
    (h : (listDeploymentsInProgress env).result = some false)
    (hnow : env.nowCheck < s.coolDownTill) :
    (tick p c env s).calls = [Call.listDeployments, Call.sleep (seconds p)]
      ∧ (∀ x ∈ (tick p c env s).calls, x.isEcs = false)
      ∧ (tick p c env s).result = some s := by
  rw [tick_of_cooling p c env s h (by omega)]
  refine ⟨rfl, ?_, rfl⟩
  intro x hx
  simp only [List.mem_cons, List.mem_singleton, List.not_mem_nil, or_false] at hx
  rcases hx with rfl | rfl <;> rfl

/-- Scenario of C7: the clock at 99 ns, the deadline at 100 ns. -/
theorem tick_during_cooldown_witness :
    (listDeploymentsInProgress demoCooling).result = some false
      ∧ demoCooling.nowCheck < demoState.coolDownTill
      ∧ (tick 5 100 demoCooling demoState).calls
        = [Call.listDeployments, Call.sleep (seconds 5)]
      ∧ (∀ x ∈ (tick 5 100 demoCooling demoState).calls, x.isEcs = false)
      ∧ (tick 5 100 demoCooling demoState).result = some demoState :=
  ⟨rfl, by decide, tick_during_cooldown 5 100 demoCooling demoState rfl (by decide)⟩

/-- C8 as stated fails for a poll interval whose nanosecond count does not
fit in 64 bits: with 9223372037 seconds the product wraps, the deadline
before the first iteration is in the past, and the first iteration, at the
start time itself, already runs the capacity synchroniser. -/
theorem runReconcile_wrapped_interval_acts_at_start :
    (0 : Int) ≤ 9223372037
      ∧ Timed 0 9223372037 demoFirstTick
      ∧ initialCoolDownTill 0 9223372037 ≠ 0 + 9223372037 * 1000000000
      ∧ ∃ pr ∈ List.zip demoFirstTick (RunReconcile demoState.r 9223372037 100 0 demoFirstTick),
          (∃ x ∈ pr.2.calls, x.isEcs = true) ∧ pr.1.nowCheck < 0 + 9223372037 * 1000000000 := by
  refine ⟨by decide, ⟨by decide, trivial⟩, by decide, ?_⟩
  decide

/-- C8, amended: for a poll interval of `p` seconds with `0 ≤ p ≤ 9223372036`
(so that its nanosecond count fits in 64 bits), a clock that does not go
back and cooldown checks at least `p` seconds apart, the cooldown deadline
before the first iteration is the start time plus `p` seconds, and no
iteration that calls the orchestration API (capacity synchroniser or
duplicate evictor) has its cooldown check earlier than that, whatever
`listDeploymentsInProgress` returns and whatever the cooldown is. -/
theorem runReconcile_waits_one_interval (r : Rebalancer) (p c start : Int) (envs : List Env)
    (hp0 : 0 ≤ p) (hp1 : p ≤ 9223372036) (ht : Timed start p envs) :
    initialCoolDownTill start p = start + p * 1000000000
      ∧ ∀ pr ∈ List.zip envs (RunReconcile r p c start envs),
          (∃ x ∈ pr.2.calls, x.isEcs = true) → start + p * 1000000000 ≤ pr.1.nowCheck := by
  refine ⟨?_, runReconcile_acts_late r p c start envs hp0 hp1 ht⟩
  simp only [initialCoolDownTill, timeAdd, seconds_of_inRange p hp0 hp1]

/-- Scenario of C8, amended: a poll interval of five seconds; the iteration
at 1 ns does nothing, the iteration at 5000000001 ns acts. -/
theorem runReconcile_waits_one_interval_witness :
    (0 : Int) ≤ 5 ∧ (5 : Int) ≤ 9223372036 ∧ Timed 0 5 demoTicks
      ∧ initialCoolDownTill 0 5 = 0 + 5 * 1000000000
      ∧ ∀ pr ∈ List.zip demoTicks (RunReconcile demoState.r 5 100 0 demoTicks),
          (∃ x ∈ pr.2.calls, x.isEcs = true) → 0 + 5 * 1000000000 ≤ pr.1.nowCheck :=
  ⟨by decide, by decide, ⟨by decide, by decide, trivial⟩,
    runReconcile_waits_one_interval demoState.r 5 100 0 demoTicks (by decide) (by decide)
      ⟨by decide, by decide, trivial⟩⟩

/-- C9: `syncTasks` is idempotent on a fixed live list: for every registry,
a second pass with the same list returns the registry of the first pass,
entry for entry, in whatever order the runtime walks the map in each pass. -/
theorem syncTasks_idempotent (o1 o2 : RangeOrder) (tasks : List Task) (cur : TaskMap) :
    syncTasks o2 tasks (syncTasks o1 tasks cur) = syncTasks o1 tasks cur := by
  have hlive : ∀ t ∈ tasks, t.taskArn ∈ syncTasks o1 tasks cur := by
    intro t ht
    have hmap : t.taskArn ∈ tasks.map Task.taskArn := List.mem_map_of_mem _ ht
    exact mem_deregisterLoop_of_live _ _ _ _
      ((mem_registerLoop_snd tasks cur ∅ _).mpr (Or.inr hmap))
      ((mem_registerLoop_fst tasks cur ∅ _).mpr (Or.inr hmap))
  have hsettled : ∀ e ∈ (syncTasks o1 tasks cur).entries,
      e.2.taskArn ∈ tasks.map Task.taskArn ∨ e.2.taskArn ∉ syncTasks o1 tasks cur := by
    intro e he
    have := deregisterLoop_settled (registerLoop tasks cur ∅).2
      (o1.order (registerLoop tasks cur ∅).1.entries) (registerLoop tasks cur ∅).1
      (fun x hx => Or.inl ((o1.perm _).mem_iff.mpr hx)) e he
    rcases this with h1 | h1
    · rcases (mem_registerLoop_snd tasks cur ∅ _).mp h1 with h2 | h2
      · exact absurd h2 (AList.not_mem_empty _)
      · exact Or.inl h2
    · exact Or.inr h1
  show deregisterLoop (registerLoop tasks (syncTasks o1 tasks cur) ∅).2
      (o2.order (registerLoop tasks (syncTasks o1 tasks cur) ∅).1.entries)
      (registerLoop tasks (syncTasks o1 tasks cur) ∅).1 = syncTasks o1 tasks cur
  rw [registerLoop_fst_of_known tasks _ ∅ hlive]
  refine deregisterLoop_fixed _ _ _ (fun e he => ?_)
  have he1 : e ∈ (syncTasks o1 tasks cur).entries := (o2.perm _).mem_iff.mp he
  rcases hsettled e he1 with h1 | h1
  · exact Or.inl ((mem_registerLoop_snd tasks _ ∅ _).mpr (Or.inr h1))
  · exact Or.inr h1

/-- C10: the capacity synchroniser is idempotent: when
`rebalanceServiceCapacity` runs twice in succession against an orchestration
state that only its own `UpdateService` call changes, the second run issues
no update and returns false. -/
theorem capacity_sync_idempotent (r : Rebalancer) (o : Orchestration) (env : Env) :
    ∃ second, capacityTwice r o env = some second
      ∧ (∀ n, Call.updateService n ∉ second.calls)
      ∧ second.result.map Prod.snd = some false := by
  obtain ⟨second, h1, h2, h3⟩ := capacityTwice_unchanged r o env
  refine ⟨second, h1, ?_, h3⟩
  intro n hn
  rw [h2] at hn
  simp at hn

end EcsRebalancer
